import Mathlib

/-!
Verification development for the PythonMonkey core: the `JSObjectProxy`
foreign-object proxy (`src/include/JSObjectProxy.hh`) and the string
bridge (`src/include/StrType.hh`).  The repository ships only the
interface declarations of these components, so each operation is
modelled from its declared contract (the doc comments in the headers and
the accompanying specification), then the claimed properties are proved
about the model.
-/

set_option autoImplicit false

/-- A host-side (Python) value as it flows through the proxy: a numeric
scalar, a string, or a reference to an object living in the foreign
(SpiderMonkey) heap.  Native dicts and proxies are both object
references into the shared graph of property bags. -/
inductive PVal where
  | num (n : Int)
  | str (s : String)
  | ref (o : Nat)
  deriving DecidableEq, Repr

/-- One foreign object: its own enumerable properties as an association
list from property key to value. -/
abbrev Entries := List (String × PVal)

/-- The foreign engine's heap: finitely many live objects, each with an
identity and its property list. -/
abbrev Heap := List (Nat × Entries)

/-- First-match association-list lookup, the model of a property read. -/
def aLookup : Entries → String → Option PVal
  | [], _ => none
  | (k1, v1) :: t, k => if k1 = k then some v1 else aLookup t k

/-- Identities of the live objects of a heap. -/
def ids (h : Heap) : List Nat := h.map Prod.fst

/-- Fetch the property list of the object with identity `i`, when live. -/
def lookupObj : Heap → Nat → Option Entries
  | [], _ => none
  | (j, es) :: t, i => if j = i then some es else lookupObj t i

/-- All ordered pairs of live object identities: the universe in which
the visited set of a cycle-safe comparison grows. -/
def allPairs (h : Heap) : Finset (Nat × Nat) :=
  (ids h).toFinset ×ˢ (ids h).toFinset

theorem lookupObj_mem_ids {h : Heap} {i : Nat} {es : Entries}
    (hl : lookupObj h i = some es) : i ∈ ids h := by
  induction h with
  | nil => simp [lookupObj] at hl
  | cons hd t ih =>
    obtain ⟨j, es0⟩ := hd
    by_cases hj : j = i
    · subst hj; simp [ids]
    · simp only [lookupObj, if_neg hj] at hl
      simp [ids] at ih ⊢
      rcases ih hl with h1
      exact Or.inr h1

theorem mem_ids_lookupObj {h : Heap} {i : Nat}
    (hi : i ∈ ids h) : ∃ es, lookupObj h i = some es := by
  induction h with
  | nil => simp [ids] at hi
  | cons hd t ih =>
    obtain ⟨j, es0⟩ := hd
    by_cases hj : j = i
    · subst hj; exact ⟨es0, by simp [lookupObj]⟩
    · have hi2 : i ∈ ids t := by
        have hc : ids ((j, es0) :: t) = j :: ids t := rfl
        rw [hc] at hi
        rcases List.mem_cons.mp hi with he | he
        · exact absurd he.symm hj
        · exact he
      rcases ih hi2 with ⟨es, hes⟩
      exact ⟨es, by simp [lookupObj, hj, hes]⟩

theorem card_sdiff_insert_lt {h : Heap} {a b : Nat}
    {visited : Finset (Nat × Nat)}
    (ha : a ∈ ids h) (hb : b ∈ ids h) (hv : (a, b) ∉ visited) :
    (allPairs h \ insert (a, b) visited).card < (allPairs h \ visited).card := by
  have hmem : (a, b) ∈ allPairs h \ visited := by
    simp [allPairs, Finset.mem_sdiff, ha, hb, hv]
  have hsub : allPairs h \ insert (a, b) visited = (allPairs h \ visited).erase (a, b) := by
    ext p
    simp only [Finset.mem_sdiff, Finset.mem_insert, Finset.mem_erase]
    tauto
  rw [hsub]
  exact Finset.card_erase_lt_of_mem hmem

mutual

/-- Modelled from the spec: the body of
`JSObjectProxyMethodDefinitions::JSObjectProxy_richcompare_helper` is not
in the repository headers; per the spec, structural equality records the
pair of operands in the visited set before recursing and treats a
re-encountered pair as equal without recursing, so the comparison
terminates on cyclic object graphs.  Scalars compare by value; two
object references compare by their property lists. -/
def eqVal (h : Heap) (visited : Finset (Nat × Nat)) : PVal → PVal → Bool
  | PVal.num m, PVal.num n => m == n
  | PVal.str s, PVal.str t => s == t
  | PVal.ref a, PVal.ref b =>
    if (a, b) ∈ visited then true
    else
      match h1 : lookupObj h a, h2 : lookupObj h b with
      | some ea, some eb =>
        ea.length == eb.length && eqEntries h (insert (a, b) visited) eb ea
      | _, _ => false
  | _, _ => false
termination_by v w => ((allPairs h \ visited).card, 0)
decreasing_by
  apply Prod.Lex.left
  exact card_sdiff_insert_lt (lookupObj_mem_ids h1) (lookupObj_mem_ids h2)
    (by assumption)

/-- Modelled from the spec: the per-key leg of the structural comparison;
every key of the list `l` must be present in `eb` with a recursively
equal value. -/
def eqEntries (h : Heap) (visited : Finset (Nat × Nat)) (eb : Entries) :
    Entries → Bool
  | [] => true
  | (k, v) :: rest =>
    (match aLookup eb k with
     | some w => eqVal h visited v w
     | none => false) && eqEntries h visited eb rest
termination_by l => ((allPairs h \ visited).card, l.length + 1)
decreasing_by
  · apply Prod.Lex.right
    omega
  · apply Prod.Lex.right
    simp only [List.length_cons]
    omega

end

/-- The comparison operators the rich-compare entry point can receive. -/
inductive CmpOp where
  | eqOp | neOp | ltOp | leOp | gtOp | geOp
  deriving DecidableEq

/-- Modelled from the spec: the body of
`JSObjectProxyMethodDefinitions::JSObjectProxy_richcompare` is not in the
repository headers; per its doc comment only equality and inequality are
implemented (`none` models Py_NotImplemented), each starting from a fresh
empty visited set that is discarded afterward. -/
def JSObjectProxy_richcompare (h : Heap) (self : Nat) (other : PVal) :
    CmpOp → Option Bool
  | CmpOp.eqOp => some (eqVal h ∅ (PVal.ref self) other)
  | CmpOp.neOp => some (!eqVal h ∅ (PVal.ref self) other)
  | _ => none

/-- A value is valid for a heap when, if it is an object reference, the
referenced object is live in that heap. -/
def validVal (h : Heap) : PVal → Prop
  | PVal.ref o => o ∈ ids h
  | _ => True

instance (h : Heap) (v : PVal) : Decidable (validVal h v) :=
  match v with
  | PVal.num _ => isTrue trivial
  | PVal.str _ => isTrue trivial
  | PVal.ref o => inferInstanceAs (Decidable (o ∈ ids h))

/-- A property list names each key at most once, as a foreign object's
own-property table does. -/
def NodupKeys (es : Entries) : Prop := (es.map Prod.fst).Nodup

/-- A well-formed foreign heap: object identities are distinct, each
object's property keys are distinct, and every reference stored in a
property points at a live object. -/
def WFHeap (h : Heap) : Prop :=
  (ids h).Nodup ∧ ∀ enm ∈ h, NodupKeys enm.snd ∧ ∀ kv ∈ enm.snd, validVal h kv.snd

instance (es : Entries) : Decidable (NodupKeys es) :=
  inferInstanceAs (Decidable (es.map Prod.fst).Nodup)

instance (h : Heap) : Decidable (WFHeap h) :=
  inferInstanceAs (Decidable ((ids h).Nodup ∧
    ∀ enm ∈ h, NodupKeys enm.snd ∧ ∀ kv ∈ enm.snd, validVal h kv.snd))

theorem lookupObj_mem {h : Heap} {i : Nat} {es : Entries}
    (hl : lookupObj h i = some es) : (i, es) ∈ h := by
  induction h with
  | nil => simp [lookupObj] at hl
  | cons hd t ih =>
    obtain ⟨j, es0⟩ := hd
    by_cases hj : j = i
    · subst hj
      simp [lookupObj] at hl
      simp [hl]
    · simp only [lookupObj, if_neg hj] at hl
      exact List.mem_cons_of_mem _ (ih hl)

theorem aLookup_self {es : Entries} (hnd : NodupKeys es) {k : String} {v : PVal}
    (hm : (k, v) ∈ es) : aLookup es k = some v := by
  induction es with
  | nil => simp at hm
  | cons hd t ih =>
    obtain ⟨k1, v1⟩ := hd
    rcases List.mem_cons.mp hm with he | he
    · obtain ⟨hk, hv⟩ := Prod.mk.injEq .. ▸ he
      subst hk
      subst hv
      simp [aLookup]
    · have hk1 : k1 ≠ k := by
        intro he2
        subst he2
        have : k1 ∈ t.map Prod.fst := List.mem_map.mpr ⟨(k1, v), he, rfl⟩
        exact (List.nodup_cons.mp hnd).1 this
      have hnd2 : NodupKeys t := (List.nodup_cons.mp hnd).2
      simp [aLookup, hk1]
      exact ih hnd2 he

theorem eqEntries_refl (h : Heap) (visited : Finset (Nat × Nat)) (ea : Entries)
    (IH : ∀ v, validVal h v → eqVal h visited v v = true) :
    ∀ l : Entries, (∀ kv ∈ l, aLookup ea kv.1 = some kv.2) →
      (∀ kv ∈ l, validVal h kv.2) → eqEntries h visited ea l = true := by
  intro l
  induction l with
  | nil => intro _ _; simp [eqEntries]
  | cons hd rest ih =>
    intro hfind hvalid
    obtain ⟨k, v⟩ := hd
    have h1 : aLookup ea k = some v := hfind (k, v) (List.mem_cons_self _ _)
    have h2 : validVal h v := hvalid (k, v) (List.mem_cons_self _ _)
    simp only [eqEntries, h1, Bool.and_eq_true]
    exact ⟨IH v h2, ih (fun kv hm => hfind kv (List.mem_cons_of_mem _ hm))
      (fun kv hm => hvalid kv (List.mem_cons_of_mem _ hm))⟩

theorem eqVal_refl (h : Heap) (hwf : WFHeap h) :
    ∀ (n : Nat) (visited : Finset (Nat × Nat)) (v : PVal),
      (allPairs h \ visited).card ≤ n → validVal h v →
      eqVal h visited v v = true := by
  intro n
  induction n with
  | zero =>
    intro visited v hcard hvalid
    cases v with
    | num m => simp [eqVal]
    | str s => simp [eqVal]
    | ref a =>
      have ha : a ∈ ids h := hvalid
      by_cases hv : (a, a) ∈ visited
      · simp [eqVal, hv]
      · exfalso
        have hmem : (a, a) ∈ allPairs h \ visited := by
          simp [allPairs, Finset.mem_sdiff, ha, hv]
        have : 0 < (allPairs h \ visited).card := Finset.card_pos.mpr ⟨_, hmem⟩
        omega
  | succ n ih =>
    intro visited v hcard hvalid
    cases v with
    | num m => simp [eqVal]
    | str s => simp [eqVal]
    | ref a =>
      have ha : a ∈ ids h := hvalid
      by_cases hv : (a, a) ∈ visited
      · simp [eqVal, hv]
      · rcases mem_ids_lookupObj ha with ⟨ea, hea⟩
        have hcard2 : (allPairs h \ insert (a, a) visited).card ≤ n := by
          have := card_sdiff_insert_lt (h := h) ha ha hv
          omega
        have hwf2 := (hwf.2 (a, ea) (lookupObj_mem hea))
        have hrefl := eqEntries_refl h (insert (a, a) visited) ea
          (fun w hw => ih (insert (a, a) visited) w hcard2 hw) ea
          (fun kv hm => by
            have : aLookup ea kv.1 = some kv.2 := aLookup_self hwf2.1 hm
            exact this)
          (fun kv hm => hwf2.2 kv hm)
        simp only [eqVal, hv, if_false]
        split
        next ea2 eb2 h1 h2 =>
          rw [hea] at h1 h2
          cases h1
          cases h2
          simp [hrefl]
        next hbad =>
          exact (hbad ea ea hea hea).elim

/-- C1: structural equality between a bound proxy and any operand is
cycle-safe.  The comparison is a total Lean function (its recursion is
well-founded because every recursive descent first inserts the operand
pair into the per-invocation visited set, which is bounded by the finite
set of live object pairs), and comparing a proxy to itself — including a
proxy whose foreign object references itself directly or through a
longer cycle — returns true. -/
theorem claim_C1_cycle_safe_equality (h : Heap) (a : Nat) (ea : Entries)
    (hwf : WFHeap h) (hbound : lookupObj h a = some ea) :
    JSObjectProxy_richcompare h a (PVal.ref a) CmpOp.eqOp = some true := by
  have hr := eqVal_refl h hwf (allPairs h \ ∅).card ∅ (PVal.ref a) le_rfl
    (lookupObj_mem_ids hbound)
  simp [JSObjectProxy_richcompare, hr]

/-- Witness for C1 at a directly self-referential foreign object. -/
theorem claim_C1_cycle_safe_equality_witness :
    JSObjectProxy_richcompare [(0, [("self", PVal.ref 0)])] 0 (PVal.ref 0)
      CmpOp.eqOp = some true :=
  claim_C1_cycle_safe_equality [(0, [("self", PVal.ref 0)])] 0
    [("self", PVal.ref 0)] (by decide) rfl

/-- Replace the property list of the object `p` in the heap, the model
of mutating a live foreign object in place (its identity is unchanged). -/
def setObj : Heap → Nat → Entries → Heap
  | [], _, _ => []
  | (j, es) :: t, p, nes => if j = p then (j, nes) :: t else (j, es) :: setObj t p nes

/-- Set one property on a foreign object: overwrite the existing binding
when the key is present, append a fresh binding otherwise. -/
def setEntry : Entries → String → PVal → Entries
  | [], k, v => [(k, v)]
  | (k1, v1) :: t, k, v => if k1 = k then (k1, v) :: t else (k1, v1) :: setEntry t k v

/-- Delete one property from a foreign object. -/
def removeEntry : Entries → String → Entries
  | [], _ => []
  | (k1, v1) :: t, k => if k1 = k then removeEntry t k else (k1, v1) :: removeEntry t k

theorem lookupObj_setObj_self {h : Heap} {p : Nat}
    (hp : p ∈ ids h) (nes : Entries) :
    lookupObj (setObj h p nes) p = some nes := by
  induction h with
  | nil => simp [ids] at hp
  | cons hd t ih =>
    obtain ⟨j, es0⟩ := hd
    by_cases hj : j = p
    · subst hj; simp [setObj, lookupObj]
    · have hp2 : p ∈ ids t := by
        have hc : ids ((j, es0) :: t) = j :: ids t := rfl
        rw [hc] at hp
        rcases List.mem_cons.mp hp with he | he
        · exact absurd he.symm hj
        · exact he
      simp [setObj, hj, lookupObj, ih hp2]
  
theorem lookupObj_setObj_other {h : Heap} {p q : Nat} (hne : q ≠ p)
    (nes : Entries) :
    lookupObj (setObj h p nes) q = lookupObj h q := by
  induction h with
  | nil => simp [setObj]
  | cons hd t ih =>
    obtain ⟨j, es0⟩ := hd
    by_cases hj : j = p
    · subst hj
      have hq : j ≠ q := fun he => hne he.symm
      simp [setObj, lookupObj, hq]
    · simp [setObj, hj, lookupObj, ih]

theorem aLookup_setEntry_self (es : Entries) (k : String) (v : PVal) :
    aLookup (setEntry es k v) k = some v := by
  induction es with
  | nil => simp [setEntry, aLookup]
  | cons hd t ih =>
    obtain ⟨k1, v1⟩ := hd
    by_cases hk : k1 = k
    · subst hk; simp [setEntry, aLookup]
    · simp [setEntry, hk, aLookup, ih]

theorem aLookup_setEntry_other (es : Entries) {k k2 : String} (hne : k2 ≠ k)
    (v : PVal) : aLookup (setEntry es k v) k2 = aLookup es k2 := by
  induction es with
  | nil =>
    have hk : k ≠ k2 := fun he => hne he.symm
    simp [setEntry, aLookup, hk]
  | cons hd t ih =>
    obtain ⟨k1, v1⟩ := hd
    by_cases hk : k1 = k
    · subst hk
      have : k1 ≠ k2 := fun he => hne he.symm
      simp [setEntry, aLookup, this]
    · simp only [setEntry, if_neg hk]
      by_cases hk2 : k1 = k2
      · simp [aLookup, hk2]
      · simp [aLookup, hk2, ih]

theorem aLookup_removeEntry_self (es : Entries) (k : String) :
    aLookup (removeEntry es k) k = none := by
  induction es with
  | nil => simp [removeEntry, aLookup]
  | cons hd t ih =>
    obtain ⟨k1, v1⟩ := hd
    by_cases hk : k1 = k
    · simp [removeEntry, hk, ih]
    · simp [removeEntry, hk, aLookup, ih]

theorem aLookup_removeEntry_other (es : Entries) {k k2 : String}
    (hne : k2 ≠ k) : aLookup (removeEntry es k) k2 = aLookup es k2 := by
  induction es with
  | nil => simp [removeEntry]
  | cons hd t ih =>
    obtain ⟨k1, v1⟩ := hd
    by_cases hk : k1 = k
    · subst hk
      have hq : k1 ≠ k2 := fun he => hne he.symm
      simp [removeEntry, aLookup, hq, ih]
    · by_cases hk2 : k1 = k2
      · subst hk2
        simp [removeEntry, hk, aLookup]
      · simp [removeEntry, hk, aLookup, hk2, ih]

/-- The operand on the right of a set-union operator: either a native
dict (its entries held directly) or another bound proxy. -/
inductive Operand where
  | dictO (d : Entries)
  | proxyO (q : Nat)

/-- The entries an operand exposes: a dict's own entries, a proxy's
foreign object's properties. -/
def operandEntries (h : Heap) : Operand → Option Entries
  | Operand.dictO d => some d
  | Operand.proxyO q => lookupObj h q

/-- Merge by iterating the right operand's items and setting each one:
entries of `ea` overlaid by entries of `eb`, later keys winning. -/
def mergeEntries (ea eb : Entries) : Entries :=
  eb.foldl (fun acc kv => setEntry acc kv.1 kv.2) ea

theorem aLookup_mergeEntries {eb : Entries} (hnd : NodupKeys eb) :
    ∀ (ea : Entries) (k : String),
      aLookup (mergeEntries ea eb) k =
        match aLookup eb k with
        | some v => some v
        | none => aLookup ea k := by
  induction eb with
  | nil => intro ea k; simp [mergeEntries, aLookup]
  | cons hd rest ih =>
    intro ea k
    obtain ⟨k0, v0⟩ := hd
    have hnd2 : NodupKeys rest := (List.nodup_cons.mp hnd).2
    have hstep : mergeEntries ea ((k0, v0) :: rest) =
        mergeEntries (setEntry ea k0 v0) rest := rfl
    rw [hstep, ih hnd2]
    by_cases hk : k = k0
    · subst hk
      have hnone : aLookup rest k = none := by
        cases hfind : aLookup rest k with
        | none => rfl
        | some w =>
          exfalso
          have hmem : k ∈ rest.map Prod.fst := by
            clear ih hstep hnd hnd2
            induction rest with
            | nil => simp [aLookup] at hfind
            | cons hd2 t2 ih2 =>
              obtain ⟨ka, va⟩ := hd2
              by_cases hka : ka = k
              · subst hka; simp
              · simp only [aLookup, if_neg hka] at hfind
                simp [ih2 hfind]
          exact (List.nodup_cons.mp hnd).1 hmem
      simp [hnone, aLookup, aLookup_setEntry_self]
    · have hne2 : ¬ k0 = k := fun he => hk he.symm
      cases hfind : aLookup rest k with
      | none => simp [aLookup, hne2, hfind, aLookup_setEntry_other ea hk v0]
      | some w => simp [aLookup, hne2, hfind]

/-- The error kinds a proxy operation can signal to the host. -/
inductive PyErr where
  | keyError (k : String)
  | systemError
  deriving DecidableEq

/-- Modelled from the spec: the body of
`JSObjectProxyMethodDefinitions::JSObjectProxy_or` is not in the
repository headers; per its doc comment and the spec, it builds a NEW
native dict holding `self`'s entries overlaid by `other`'s entries
(later keys win) and does not touch the heap, which is returned
unchanged alongside the result. -/
def JSObjectProxy_or (h : Heap) (p : Nat) (other : Operand) :
    Option (Entries × Heap) :=
  match lookupObj h p, operandEntries h other with
  | some ea, some eb => some (mergeEntries ea eb, h)
  | _, _ => none

/-- Modelled from the spec: the body of
`JSObjectProxyMethodDefinitions::JSObjectProxy_ior` is not in the
repository headers; per its doc comment and the spec, it performs the
same merge but writes the merged entries back into `self`'s own foreign
object and returns `self` itself (the same identity `p`). -/
def JSObjectProxy_ior (h : Heap) (p : Nat) (other : Operand) :
    Option (Nat × Heap) :=
  match lookupObj h p, operandEntries h other with
  | some ea, some eb => some (p, setObj h p (mergeEntries ea eb))
  | _, _ => none

/-- Modelled from the spec: the body of
`JSObjectProxyMethodDefinitions::JSObjectProxy_pop_method` is not in the
repository headers; per its doc comment, it removes and returns the
value when the key is present, returns the supplied default when absent,
and raises KeyError when absent with no default. -/
def JSObjectProxy_pop_method (h : Heap) (p : Nat) (k : String)
    (dflt : Option PVal) : Except PyErr (PVal × Heap) :=
  match lookupObj h p with
  | none => Except.error PyErr.systemError
  | some ea =>
    match aLookup ea k with
    | some v => Except.ok (v, setObj h p (removeEntry ea k))
    | none =>
      match dflt with
      | some d => Except.ok (d, h)
      | none => Except.error (PyErr.keyError k)

/-- Modelled from the spec: the body of
`JSObjectProxyMethodDefinitions::JSObjectProxy_setdefault_method` is not
in the repository headers; per its doc comment, it returns the current
value when the key is present and otherwise stores the default under the
key and returns it. -/
def JSObjectProxy_setdefault_method (h : Heap) (p : Nat) (k : String)
    (d : PVal) : Except PyErr (PVal × Heap) :=
  match lookupObj h p with
  | none => Except.error PyErr.systemError
  | some ea =>
    match aLookup ea k with
    | some v => Except.ok (v, h)
    | none => Except.ok (d, setObj h p (setEntry ea k d))

/-- Modelled from the spec: the body of
`JSObjectProxyMethodDefinitions::JSObjectProxy_assign` is not in the
repository headers; per its doc comment, a non-absent value sets the
property, and the absent sentinel (`none`, a delete request) removes the
property, raising KeyError when the key is missing. -/
def JSObjectProxy_assign (h : Heap) (p : Nat) (k : String)
    (value : Option PVal) : Except PyErr Heap :=
  match lookupObj h p with
  | none => Except.error PyErr.systemError
  | some ea =>
    match value with
    | some v => Except.ok (setObj h p (setEntry ea k v))
    | none =>
      match aLookup ea k with
      | some _ => Except.ok (setObj h p (removeEntry ea k))
      | none => Except.error (PyErr.keyError k)

/-- C4: the or operation returns a NEW native dict holding P's entries
overlaid by the operand's entries (for every key, the operand's binding
wins when both sides have one) and leaves the heap — hence P itself —
untouched, while the in-place ior operation performs the same merge
writing into P's own foreign object, returns exactly the identity `p`
(reference identity preserved), and alters no other object. -/
theorem claim_C4_or_ior (h : Heap) (p : Nat) (other : Operand)
    (ea eb : Entries) (hp : lookupObj h p = some ea)
    (ho : operandEntries h other = some eb) (hnd : NodupKeys eb) :
    (JSObjectProxy_or h p other = some (mergeEntries ea eb, h)) ∧
    (∀ k, aLookup (mergeEntries ea eb) k =
      match aLookup eb k with
      | some v => some v
      | none => aLookup ea k) ∧
    (JSObjectProxy_ior h p other = some (p, setObj h p (mergeEntries ea eb)) ∧
      lookupObj (setObj h p (mergeEntries ea eb)) p = some (mergeEntries ea eb) ∧
      ∀ q, q ≠ p → lookupObj (setObj h p (mergeEntries ea eb)) q = lookupObj h q) := by
  refine ⟨?_, ?_, ?_, ?_, ?_⟩
  · simp [JSObjectProxy_or, hp, ho]
  · intro k
    exact aLookup_mergeEntries hnd ea k
  · simp [JSObjectProxy_ior, hp, ho]
  · exact lookupObj_setObj_self (lookupObj_mem_ids hp) _
  · intro q hq
    exact lookupObj_setObj_other hq _

/-- Witness for C4: a one-object heap or-merged with a native dict. -/
theorem claim_C4_or_ior_witness :
    (JSObjectProxy_or [(0, [("a", PVal.num 1)])] 0
        (Operand.dictO [("b", PVal.num 2)]) =
      some ([("a", PVal.num 1), ("b", PVal.num 2)], [(0, [("a", PVal.num 1)])])) ∧
    (JSObjectProxy_ior [(0, [("a", PVal.num 1)])] 0
        (Operand.dictO [("b", PVal.num 2)]) =
      some (0, [(0, [("a", PVal.num 1), ("b", PVal.num 2)])])) := by
  have hc := claim_C4_or_ior [(0, [("a", PVal.num 1)])] 0
    (Operand.dictO [("b", PVal.num 2)]) [("a", PVal.num 1)] [("b", PVal.num 2)]
    rfl rfl (by decide)
  exact ⟨hc.1, hc.2.2.1⟩

/-- C5: pop removes and returns the value when the key is present (the
key is gone from P's foreign object afterwards); when the key is absent
and a default was supplied it returns the default leaving the heap —
hence P — unchanged; when the key is absent with no default it raises
KeyError. -/
theorem claim_C5_pop (h : Heap) (p : Nat) (k : String) (ea : Entries)
    (hp : lookupObj h p = some ea) :
    (∀ v, aLookup ea k = some v → ∀ dflt,
      JSObjectProxy_pop_method h p k dflt =
        Except.ok (v, setObj h p (removeEntry ea k)) ∧
      lookupObj (setObj h p (removeEntry ea k)) p = some (removeEntry ea k) ∧
      aLookup (removeEntry ea k) k = none) ∧
    (aLookup ea k = none → ∀ d,
      JSObjectProxy_pop_method h p k (some d) = Except.ok (d, h)) ∧
    (aLookup ea k = none →
      JSObjectProxy_pop_method h p k none = Except.error (PyErr.keyError k)) := by
  refine ⟨?_, ?_, ?_⟩
  · intro v hv dflt
    refine ⟨?_, ?_, ?_⟩
    · simp [JSObjectProxy_pop_method, hp, hv]
    · exact lookupObj_setObj_self (lookupObj_mem_ids hp) _
    · exact aLookup_removeEntry_self ea k
  · intro hnone d
    simp [JSObjectProxy_pop_method, hp, hnone]
  · intro hnone
    simp [JSObjectProxy_pop_method, hp, hnone]

/-- Witness for C5 at an empty proxy and a one-entry proxy. -/
theorem claim_C5_pop_witness :
    (JSObjectProxy_pop_method [(0, ([] : Entries))] 0 "x"
        (some (PVal.str "default")) = Except.ok (PVal.str "default", [(0, ([] : Entries))])) ∧
    (JSObjectProxy_pop_method [(0, ([] : Entries))] 0 "x" none =
      Except.error (PyErr.keyError "x")) := by
  have hc := claim_C5_pop [(0, ([] : Entries))] 0 "x" [] rfl
  exact ⟨hc.2.1 rfl (PVal.str "default"), hc.2.2 rfl⟩

/-- C6: setdefault returns the current value when the key is present and
leaves the heap unchanged; otherwise it stores the default under the key
and returns it, so that on an initially absent key the stored value is
the default, and a second setdefault with a different default still
returns the first stored value without further change. -/
theorem claim_C6_setdefault (h : Heap) (p : Nat) (k : String) (d : PVal)
    (ea : Entries) (hp : lookupObj h p = some ea) :
    (∀ v, aLookup ea k = some v →
      JSObjectProxy_setdefault_method h p k d = Except.ok (v, h)) ∧
    (aLookup ea k = none →
      JSObjectProxy_setdefault_method h p k d =
        Except.ok (d, setObj h p (setEntry ea k d)) ∧
      lookupObj (setObj h p (setEntry ea k d)) p = some (setEntry ea k d) ∧
      aLookup (setEntry ea k d) k = some d ∧
      ∀ d2, JSObjectProxy_setdefault_method (setObj h p (setEntry ea k d)) p k d2 =
        Except.ok (d, setObj h p (setEntry ea k d))) := by
  constructor
  · intro v hv
    simp [JSObjectProxy_setdefault_method, hp, hv]
  · intro hnone
    have hobj : lookupObj (setObj h p (setEntry ea k d)) p = some (setEntry ea k d) :=
      lookupObj_setObj_self (lookupObj_mem_ids hp) _
    refine ⟨?_, hobj, aLookup_setEntry_self ea k d, ?_⟩
    · simp [JSObjectProxy_setdefault_method, hp, hnone]
    · intro d2
      simp [JSObjectProxy_setdefault_method, hobj, aLookup_setEntry_self ea k d]

/-- Witness for C6: setdefault on an initially empty proxy, then a
second call with a different default. -/
theorem claim_C6_setdefault_witness :
    JSObjectProxy_setdefault_method [(0, ([] : Entries))] 0 "k" (PVal.num 5) =
      Except.ok (PVal.num 5, [(0, [("k", PVal.num 5)])]) ∧
    JSObjectProxy_setdefault_method [(0, [("k", PVal.num 5)])] 0 "k" (PVal.num 7) =
      Except.ok (PVal.num 5, [(0, [("k", PVal.num 5)])]) := by
  have hc := claim_C6_setdefault [(0, ([] : Entries))] 0 "k" (PVal.num 5) [] rfl
  have h2 := (hc.2 rfl).2.2.2 (PVal.num 7)
  exact ⟨(hc.2 rfl).1, h2⟩

/-- C7: an assign call carrying the absent-value sentinel (a delete
request) removes the property when the key is present on P's foreign
object, and raises KeyError when the key is not present, mirroring
native dict delete semantics. -/
theorem claim_C7_delete (h : Heap) (p : Nat) (k : String) (ea : Entries)
    (hp : lookupObj h p = some ea) :
    (∀ v, aLookup ea k = some v →
      JSObjectProxy_assign h p k none = Except.ok (setObj h p (removeEntry ea k)) ∧
      lookupObj (setObj h p (removeEntry ea k)) p = some (removeEntry ea k) ∧
      aLookup (removeEntry ea k) k = none) ∧
    (aLookup ea k = none →
      JSObjectProxy_assign h p k none = Except.error (PyErr.keyError k)) := by
  constructor
  · intro v hv
    refine ⟨?_, lookupObj_setObj_self (lookupObj_mem_ids hp) _,
      aLookup_removeEntry_self ea k⟩
    simp [JSObjectProxy_assign, hp, hv]
  · intro hnone
    simp [JSObjectProxy_assign, hp, hnone]

/-- Witness for C7: deleting a present key then a missing key. -/
theorem claim_C7_delete_witness :
    (JSObjectProxy_assign [(0, [("a", PVal.num 1)])] 0 "a" none =
      Except.ok [(0, ([] : Entries))]) ∧
    (JSObjectProxy_assign [(0, ([] : Entries))] 0 "missing" none =
      Except.error (PyErr.keyError "missing")) := by
  have h1 := claim_C7_delete [(0, [("a", PVal.num 1)])] 0 "a" [("a", PVal.num 1)] rfl
  have h2 := claim_C7_delete [(0, ([] : Entries))] 0 "missing" [] rfl
  exact ⟨(h1.1 (PVal.num 1) rfl).1, h2.2 rfl⟩

/-- A host key arriving at the membership test: either one that
converts to a foreign property key, or one whose conversion raises. -/
inductive PKey where
  | strK (s : String)
  | badK
  deriving DecidableEq

/-- Convert a host key to a foreign property key; `none` models a
conversion that raised an exception. -/
def keyToPropertyKey : PKey → Option String
  | PKey.strK s => some s
  | PKey.badK => none

/-- Modelled from the spec: the body of
`JSObjectProxyMethodDefinitions::JSObjectProxy_contains` is not in the
repository headers; per its doc comment it returns 1 if the key is in
the dict, 0 if not, and -1 on error (a failed key conversion or a failed
foreign-engine lookup, here an unbound proxy). -/
def JSObjectProxy_contains (h : Heap) (p : Nat) (key : PKey) : Int :=
  match keyToPropertyKey key with
  | none => -1
  | some k =>
    match lookupObj h p with
    | none => -1
    | some ea => if (aLookup ea k).isSome then 1 else 0

/-- C10: the membership test returns exactly one of 1, 0 and -1; when
key conversion and the foreign lookup both succeed it returns 1 for a
present key and 0 for an absent one, and whenever an error occurred
(key conversion failed, or the foreign-engine lookup failed) it returns
-1 — never 0 — so a failed lookup is always distinguishable from a mere
absence. -/
theorem claim_C10_contains (h : Heap) (p : Nat) (key : PKey) :
    (JSObjectProxy_contains h p key = 1 ∨ JSObjectProxy_contains h p key = 0 ∨
      JSObjectProxy_contains h p key = -1) ∧
    (∀ k ea, keyToPropertyKey key = some k → lookupObj h p = some ea →
      JSObjectProxy_contains h p key = if (aLookup ea k).isSome then 1 else 0) ∧
    ((keyToPropertyKey key = none ∨ lookupObj h p = none) →
      JSObjectProxy_contains h p key = -1 ∧ JSObjectProxy_contains h p key ≠ 0) := by
  refine ⟨?_, ?_, ?_⟩
  · unfold JSObjectProxy_contains
    cases keyToPropertyKey key with
    | none => simp
    | some k =>
      cases lookupObj h p with
      | none => simp
      | some ea =>
        by_cases hs : (aLookup ea k).isSome
        · simp [hs]
        · simp [hs]
  · intro k ea hk hl
    simp [JSObjectProxy_contains, hk, hl]
  · intro herr
    have hres : JSObjectProxy_contains h p key = -1 := by
      rcases herr with hk | hl
      · simp [JSObjectProxy_contains, hk]
      · unfold JSObjectProxy_contains
        cases hkc : keyToPropertyKey key with
        | none => simp
        | some k => simp [hl]
    exact ⟨hres, by rw [hres]; decide⟩

/-- Witness for C10: a present key, an absent key, a key whose
conversion raises, and an unbound proxy. -/
theorem claim_C10_contains_witness :
    JSObjectProxy_contains [(0, [("a", PVal.num 1)])] 0 (PKey.strK "a") = 1 ∧
    JSObjectProxy_contains [(0, [("a", PVal.num 1)])] 0 (PKey.strK "b") = 0 ∧
    JSObjectProxy_contains [(0, [("a", PVal.num 1)])] 0 PKey.badK = -1 ∧
    JSObjectProxy_contains [(0, [("a", PVal.num 1)])] 7 (PKey.strK "a") = -1 := by
  have h1 := (claim_C10_contains [(0, [("a", PVal.num 1)])] 0 (PKey.strK "a")).2.1
    "a" [("a", PVal.num 1)] rfl rfl
  have h2 := (claim_C10_contains [(0, [("a", PVal.num 1)])] 0 (PKey.strK "b")).2.1
    "b" [("a", PVal.num 1)] rfl rfl
  have h3 := (claim_C10_contains [(0, [("a", PVal.num 1)])] 0 PKey.badK).2.2
    (Or.inl rfl)
  have h4 := (claim_C10_contains [(0, [("a", PVal.num 1)])] 7 (PKey.strK "a")).2.2
    (Or.inr rfl)
  refine ⟨?_, ?_, h3.1, h4.1⟩
  · rw [h1]; rfl
  · rw [h2]; rfl

/-- An event in the life of one proxy instance, after the allocation
step (`tp_new`) has zero-initialized the rooted slot: an initialization
(`tp_init`, binding a live foreign object and rooting it, releasing any
previously held root first) or the destruction (`tp_dealloc`). -/
inductive LEvent where
  | initEv (o : Nat)
  | deallocEv

/-- The observable lifecycle state of one proxy instance: the rooted
slot (`none` models a null `JS::RootedObject`), whether the instance has
been freed, and how many roots were acquired and released so far. -/
structure LState where
  slot : Option Nat
  freed : Bool
  acquired : Nat
  released : Nat
  deriving DecidableEq, Repr

/-- The state `JSObjectProxy_new` hands over: rooted slot
zero-initialized, nothing acquired or released yet. -/
def lalloc : LState := ⟨none, false, 0, 0⟩

/-- Modelled from the spec: the bodies of `JSObjectProxy_init` and
`JSObjectProxy_dealloc` are not in the repository headers; per the spec
lifecycle, initialization roots the new foreign object (releasing the
prior root first when re-initializing), and deallocation — legal only on
a fully-initialized instance — removes the reference to the underlying
JSObject before the proxy is freed. -/
def lstep : LState → LEvent → Option LState
  | ⟨slot, false, a, r⟩, LEvent.initEv o =>
    some ⟨some o, false, a + 1, if slot.isSome then r + 1 else r⟩
  | ⟨some _, false, a, r⟩, LEvent.deallocEv => some ⟨none, true, a, r + 1⟩
  | _, _ => none

/-- Run a sequence of lifecycle events from a state. -/
def lrun : LState → List LEvent → Option LState
  | s, [] => some s
  | s, e :: t =>
    match lstep s e with
    | some s2 => lrun s2 t
    | none => none

/-- The lifecycle accounting invariant: while the instance is live, the
number of acquired roots exceeds the released ones by exactly one when
the slot is occupied and by zero when it is empty; once freed, every
acquired root has been released and the slot is empty. -/
def LInv (s : LState) : Prop :=
  if s.freed then s.acquired = s.released ∧ s.slot = none
  else if s.slot.isSome then s.acquired = s.released + 1
  else s.acquired = 0 ∧ s.released = 0

theorem lstep_inv {s s2 : LState} {e : LEvent} (hinv : LInv s)
    (hs : lstep s e = some s2) : LInv s2 := by
  obtain ⟨slot, freed, a, r⟩ := s
  cases e with
  | initEv o =>
    cases freed with
    | false =>
      simp [lstep] at hs
      subst hs
      cases slot with
      | none => simp_all [LInv]
      | some x => simp_all [LInv]
    | true => simp [lstep] at hs
  | deallocEv =>
    cases freed with
    | false =>
      cases slot with
      | none => simp [lstep] at hs
      | some x =>
        simp [lstep] at hs
        subst hs
        simp_all [LInv]
    | true => simp [lstep] at hs

theorem lrun_inv : ∀ (t : List LEvent) (s s2 : LState), LInv s →
    lrun s t = some s2 → LInv s2 := by
  intro t
  induction t with
  | nil =>
    intro s s2 hinv hrun
    simp [lrun] at hrun
    subst hrun
    exact hinv
  | cons e rest ih =>
    intro s s2 hinv hrun
    simp only [lrun] at hrun
    cases hs : lstep s e with
    | none => rw [hs] at hrun; exact absurd hrun (by simp)
    | some smid =>
      rw [hs] at hrun
      exact ih smid s2 (lstep_inv hinv hs) hrun

/-- C2: over any lifecycle of a proxy instance (allocation with a
zero-initialized slot, then any accepted sequence of initializations and
the destruction), the rooted reference is non-null whenever the instance
is live and has been initialized at least once; every acquired root is
released exactly once by the time destruction completes, the final
release happening at destruction (the freed state holds no root); and
while live the instance holds exactly one outstanding root after
initialization. -/
theorem claim_C2_root_lifecycle (t : List LEvent) (s : LState)
    (hrun : lrun lalloc t = some s) :
    (s.freed = false → 0 < s.acquired → s.slot.isSome = true) ∧
    (s.freed = false → 0 < s.acquired → s.acquired = s.released + 1) ∧
    (s.freed = true → s.acquired = s.released ∧ s.slot = none) := by
  have hinv : LInv s := lrun_inv t lalloc s (by simp [LInv, lalloc]) hrun
  refine ⟨?_, ?_, ?_⟩
  · intro hf ha
    simp only [LInv, hf, if_false] at hinv
    by_cases hs : s.slot.isSome
    · exact hs
    · simp [hs] at hinv
      omega
  · intro hf ha
    simp only [LInv, hf, if_false] at hinv
    by_cases hs : s.slot.isSome
    · simp [hs] at hinv
      exact hinv
    · simp [hs] at hinv
      omega
  · intro hf
    simp only [LInv, hf, if_true] at hinv
    exact hinv

/-- Witness for C2: allocate, bind, re-bind, destroy — two roots
acquired, two released, slot empty at the end. -/
theorem claim_C2_root_lifecycle_witness :
    lrun lalloc [LEvent.initEv 4, LEvent.initEv 9, LEvent.deallocEv] =
      some ⟨none, true, 2, 2⟩ ∧
    (⟨none, true, 2, 2⟩ : LState).acquired = (⟨none, true, 2, 2⟩ : LState).released := by
  refine ⟨rfl, ?_⟩
  exact ((claim_C2_root_lifecycle
    [LEvent.initEv 4, LEvent.initEv 9, LEvent.deallocEv] ⟨none, true, 2, 2⟩ rfl).2.2 rfl).1

/-- A UTF-16 code unit is a surrogate (matched or unpaired). -/
def isSurrogate (u : Nat) : Bool := decide (0xD800 ≤ u ∧ u ≤ 0xDFFF)

/-- A UTF-16 high (leading) surrogate code unit. -/
def isHighSurrogate (u : Nat) : Bool := decide (0xD800 ≤ u ∧ u ≤ 0xDBFF)

/-- A UTF-16 low (trailing) surrogate code unit. -/
def isLowSurrogate (u : Nat) : Bool := decide (0xDC00 ≤ u ∧ u ≤ 0xDFFF)

/-- A foreign (SpiderMonkey) string: its sequence of 16-bit code units. -/
abbrev JSStr := List Nat

/-- A host (Python) string together with the encoding of its backing
store: single-byte Latin-1, 16-bit UCS2, or 32-bit UCS4 units. -/
inductive PyStr where
  | latin1 (units : List Nat)
  | ucs2 (units : List Nat)
  | ucs4 (units : List Nat)
  deriving DecidableEq, Repr

/-- Modelled from the spec: the body of
`StrType::StrType(JSContext*, JSString*)` is not in the repository
headers; per its doc-comment conversion table, code units that all fit
in one byte share the Latin-1 representation, and any other content is
copied verbatim into a UCS2 backing store — surrogates, paired or
unpaired, are preserved rather than rejected, and any upgrade past
0xFFFF is deferred to an explicit later call. -/
def jsToPy (s : JSStr) : PyStr :=
  if s.all (fun u => u ≤ 0xFF) then PyStr.latin1 s else PyStr.ucs2 s

/-- Encode a sequence of code points as UTF-16 code units, splitting
code points above 0xFFFF into surrogate pairs. -/
def encodeUTF16 : List Nat → List Nat
  | [] => []
  | c :: rest =>
    if 0x10000 ≤ c then
      (0xD800 + (c - 0x10000) / 0x400) :: (0xDC00 + (c - 0x10000) % 0x400)
        :: encodeUTF16 rest
    else c :: encodeUTF16 rest

/-- Modelled from the spec: the host-to-foreign direction of the string
bridge (the `StrType(PyObject*)` path) is not in the repository headers;
per the spec it reproduces Latin-1 and UCS2 content code unit for code
unit and splits UCS4 code points by the engine's own UTF-16 codec. -/
def pyToJs : PyStr → JSStr
  | PyStr.latin1 l => l
  | PyStr.ucs2 l => l
  | PyStr.ucs4 l => encodeUTF16 l

/-- Whether a code-unit sequence contains a matched surrogate pair — an
adjacent high-then-low pair, which is exactly how a code point above
0xFFFF appears in a foreign string. -/
def hasMatchedPair : List Nat → Bool
  | a :: b :: rest => (isHighSurrogate a && isLowSurrogate b) || hasMatchedPair (b :: rest)
  | _ => false

/-- Decode UTF-16 code units to code points: a matched high-low pair
combines into one code point above 0xFFFF; every other unit (including
an unpaired surrogate) passes through unchanged. -/
def decodeUTF16 : List Nat → List Nat
  | a :: b :: rest =>
    if isHighSurrogate a && isLowSurrogate b then
      (0x10000 + (a - 0xD800) * 0x400 + (b - 0xDC00)) :: decodeUTF16 rest
    else a :: decodeUTF16 (b :: rest)
  | l => l

/-- Modelled from the spec: the body of
`StrType::containsSurrogatePair` is not in the repository headers; per
its doc comment it reports whether the backing store is UCS2-encoded and
contains at least one surrogate code unit, matched or unpaired, and
reports false for any non-UCS2 backing store. -/
def StrType_containsSurrogatePair : PyStr → Bool
  | PyStr.ucs2 l => l.any isSurrogate
  | _ => false

/-- Modelled from the spec: the body of `StrType::asUCS4` is not in the
repository headers; per its doc comment and the spec, it creates a new
UCS4-encoded backing store for a UCS2 string (combining surrogate
pairs into code points) and is a no-op on anything already outside the
16-bit form. -/
def StrType_asUCS4 : PyStr → PyStr
  | PyStr.ucs2 l => PyStr.ucs4 (decodeUTF16 l)
  | s => s

/-- The code-point sequence a host string exposes: for Latin-1 and UCS4
each stored unit is one code point; for a UCS2 store each 16-bit unit is
likewise one host-level code point (surrogates are not combined until
the explicit upgrade). -/
def pyCodePoints : PyStr → List Nat
  | PyStr.latin1 l => l
  | PyStr.ucs2 l => l
  | PyStr.ucs4 l => l

/-- C3: a foreign string whose code points all lie at or below 0xFFFF
(no matched surrogate pair, each unit a valid 16-bit code unit) survives
the round trip to the host representation and back exactly, unpaired
surrogate code units included. -/
theorem claim_C3_roundtrip (s : JSStr) (hunits : ∀ u ∈ s, u < 0x10000)
    (hnopair : hasMatchedPair s = false) : pyToJs (jsToPy s) = s := by
  unfold jsToPy
  by_cases hall : s.all (fun u => u ≤ 0xFF)
  · simp [hall, pyToJs]
  · simp [hall, pyToJs]

/-- Witness for C3 at a string holding a letter and an unpaired high
surrogate. -/
theorem claim_C3_roundtrip_witness :
    pyToJs (jsToPy [0x61, 0xD800]) = [0x61, 0xD800] :=
  claim_C3_roundtrip [0x61, 0xD800] (by decide) (by decide)

theorem hasMatchedPair_high {l : List Nat} (hm : hasMatchedPair l = true) :
    ∃ u ∈ l, 0xD800 ≤ u := by
  induction l with
  | nil => simp [hasMatchedPair] at hm
  | cons a t ih =>
    cases t with
    | nil => simp [hasMatchedPair] at hm
    | cons b rest =>
      rw [hasMatchedPair] at hm
      rcases Bool.or_eq_true_iff.mp hm with hpair | hrest
      · have ha := (Bool.and_eq_true_iff.mp hpair).1
        have := of_decide_eq_true ha
        exact ⟨a, List.mem_cons_self _ _, this.1⟩
      · rcases ih hrest with ⟨u, hu, hge⟩
        exact ⟨u, List.mem_cons_of_mem _ hu, hge⟩

/-- C8: the representation upgrade is idempotent — applying it twice is
the same as applying it once, and on a string already in 32-bit form it
is a no-op — and a foreign string that contains a code point above
0xFFFF (a matched surrogate pair) yields, after the upgrade, a host
string whose code-point sequence is exactly the decoded code-point
sequence of the foreign string. -/
theorem claim_C8_asUCS4 :
    (∀ s : PyStr, StrType_asUCS4 (StrType_asUCS4 s) = StrType_asUCS4 s) ∧
    (∀ l : List Nat, StrType_asUCS4 (PyStr.ucs4 l) = PyStr.ucs4 l) ∧
    (∀ fs : JSStr, hasMatchedPair fs = true →
      pyCodePoints (StrType_asUCS4 (jsToPy fs)) = decodeUTF16 fs) := by
  refine ⟨?_, ?_, ?_⟩
  · intro s
    cases s with
    | latin1 l => rfl
    | ucs2 l => rfl
    | ucs4 l => rfl
  · intro l
    rfl
  · intro fs hm
    rcases hasMatchedPair_high hm with ⟨u, hu, hge⟩
    have hall : fs.all (fun u => u ≤ 0xFF) = false := by
      rw [List.all_eq_false]
      refine ⟨u, hu, ?_⟩
      simp
      omega
    simp [jsToPy, hall, StrType_asUCS4, pyCodePoints]

/-- Witness for C8 at a matched surrogate pair encoding U+10437. -/
theorem claim_C8_asUCS4_witness :
    pyCodePoints (StrType_asUCS4 (jsToPy [0xD801, 0xDC37])) = [0x10437] := by
  have hc := claim_C8_asUCS4.2.2 [0xD801, 0xDC37] (by decide)
  rw [hc]
  decide

/-- C9: the surrogate test returns true exactly when the backing store
is in 16-bit UCS2 form and holds at least one surrogate code unit,
matched or unpaired; for any other backing store, or a UCS2 store with
no surrogate unit, it returns false. -/
theorem claim_C9_containsSurrogatePair (s : PyStr) :
    StrType_containsSurrogatePair s = true ↔
      ∃ l, s = PyStr.ucs2 l ∧ ∃ u ∈ l, isSurrogate u = true := by
  cases s with
  | latin1 l =>
    simp [StrType_containsSurrogatePair]
  | ucs2 l =>
    simp [StrType_containsSurrogatePair, List.any_eq_true]
  | ucs4 l =>
    simp [StrType_containsSurrogatePair]
